import Mathlib

/-!
Shallow embedding of the Rush build-cache and IPC operation-runner code
(`ProjectBuildCache` and `IPCOperationRunner`), together with proofs about
the cache-key derivation, the tiered restore/save protocol, the output
enumeration, and the IPC message handling.

Projects are modelled as elements of `Fin n`; the dependency graph is a
function `deps : Fin n → List (Fin n)` giving, for each project, its
`dependencyProjects` in declaration (iteration) order.  JavaScript `Set`s
are modelled as insertion-ordered duplicate-free lists where iteration
order matters, and as `Finset`s where only membership is consulted.
The SHA-1 hash is modelled collision-freely by the exact sequence of
chunks fed to `hash.update`.
-/

namespace RushVerify

/-- Modelled from the spec: `RushConstants.hashDelimiter` (the constant is not
part of the sampled source; the spec only calls it "a delimiter"). -/
def hashDelimiter : String := "|"

/-- The `JSON.stringify` serialization of the list of output folder names
(string escaping elided; only injectivity on plain names is relied upon). -/
def jsonStringifyStringList (l : List String) : String :=
  ("[") ++ String.intercalate (",") (l.map (fun s => ("\x22") ++ s ++ ("\x22"))) ++ ("]")

/-- JavaScript `Set.prototype.add` on an insertion-ordered duplicate-free list. -/
def jsSetAdd {α : Type} [DecidableEq α] (l : List α) (x : α) : List α :=
  if x ∈ l then l else l ++ [x]

/-- The inner loop of `ProjectBuildCache._getCacheId` that scans
`projectToProcess.dependencyProjects`, adding each dependency that is not in
`projectsThatHaveBeenProcessed` to `newProjectsToProcess`. -/
def addNewDeps {n : Nat} (processed : Finset (Fin n)) (acc : List (Fin n))
    (ds : List (Fin n)) : List (Fin n) :=
  ds.foldl (fun a d => if d ∈ processed then a else jsSetAdd a d) acc

/-- One wave of the `while (projectsToProcess.size > 0)` loop of
`ProjectBuildCache._getCacheId`: each project of the wave is marked processed,
its state hash is fetched (a falsy hash aborts with `undefined`, modelled as
`none`), pushed onto `projectStates`, and its unprocessed dependencies are
queued for the next wave. -/
def processWave {n : Nat} (fp : Fin n → Option String) (deps : Fin n → List (Fin n)) :
    List (Fin n) → Finset (Fin n) → List (Fin n) → List String →
    Option (Finset (Fin n) × List (Fin n) × List String)
  | [], processed, newTP, states => some (processed, newTP, states)
  | p :: rest, processed, newTP, states =>
    let processed' := insert p processed
    match fp p with
    | none => none
    | some s =>
      if s = ("") then none
      else processWave fp deps rest processed' (addNewDeps processed' newTP (deps p))
        (states ++ [s])

theorem mem_addNewDeps_of_mem_acc {n : Nat} (processed : Finset (Fin n))
    (ds : List (Fin n)) (acc : List (Fin n)) (x : Fin n) (hx : x ∈ acc) :
    x ∈ addNewDeps processed acc ds := by
  induction ds generalizing acc with
  | nil => exact hx
  | cons d rest ih =>
    simp only [addNewDeps, List.foldl_cons] at *
    apply ih
    by_cases hd : d ∈ processed
    · simpa [hd] using hx
    · simp only [hd, if_false, jsSetAdd]
      by_cases hdm : d ∈ acc
      · simpa [hdm] using hx
      · simp [hdm, List.mem_append, hx]

theorem mem_of_mem_addNewDeps {n : Nat} (processed : Finset (Fin n))
    (ds : List (Fin n)) (acc : List (Fin n)) (x : Fin n)
    (hx : x ∈ addNewDeps processed acc ds) :
    x ∈ acc ∨ (x ∈ ds ∧ x ∉ processed) := by
  induction ds generalizing acc with
  | nil => exact Or.inl hx
  | cons d rest ih =>
    simp only [addNewDeps, List.foldl_cons] at hx
    rcases ih _ hx with h | h
    · by_cases hd : d ∈ processed
      · simp only [hd, if_true] at h
        exact Or.inl h
      · simp only [hd, if_false, jsSetAdd] at h
        by_cases hdm : d ∈ acc
        · simp only [hdm, if_true] at h
          exact Or.inl h
        · simp only [hdm, if_false, List.mem_append, List.mem_singleton] at h
          rcases h with h | h
          · exact Or.inl h
          · exact Or.inr ⟨by simp [h], by simpa [h] using hd⟩
    · exact Or.inr ⟨List.mem_cons_of_mem _ h.1, h.2⟩

theorem mem_addNewDeps_of_not_processed {n : Nat} (processed : Finset (Fin n))
    (ds : List (Fin n)) (acc : List (Fin n)) (x : Fin n)
    (hx : x ∈ ds) (hp : x ∉ processed) :
    x ∈ addNewDeps processed acc ds := by
  induction ds generalizing acc with
  | nil => cases hx
  | cons d rest ih =>
    simp only [addNewDeps, List.foldl_cons]
    rcases List.mem_cons.mp hx with h | h
    · subst h
      apply mem_addNewDeps_of_mem_acc
      simp only [hp, if_false, jsSetAdd]
      by_cases hdm : x ∈ acc
      · simp [hdm]
      · simp [hdm]
    · exact ih _ h

theorem processWave_processed_eq {n : Nat} (fp : Fin n → Option String)
    (deps : Fin n → List (Fin n)) :
    ∀ (tp : List (Fin n)) (processed : Finset (Fin n)) (ntp : List (Fin n))
      (sts : List String) (p' : Finset (Fin n)) (tp' : List (Fin n)) (sts' : List String),
      processWave fp deps tp processed ntp sts = some (p', tp', sts') →
      p' = processed ∪ tp.toFinset := by
  intro tp
  induction tp with
  | nil =>
    intro processed ntp sts p' tp' sts' h
    simp only [processWave, Option.some.injEq, Prod.mk.injEq] at h
    simp [← h.1]
  | cons p rest ih =>
    intro processed ntp sts p' tp' sts' h
    cases hfp : fp p with
    | none => simp only [processWave, hfp] at h; exact Option.noConfusion h
    | some s =>
      simp only [processWave, hfp] at h
      by_cases hs : s = ("")
      · rw [if_pos hs] at h; exact Option.noConfusion h
      · rw [if_neg hs] at h
        have := ih _ _ _ _ _ _ h
        rw [this]
        ext x
        simp [Finset.mem_union, Finset.mem_insert, List.mem_toFinset]

theorem processWave_new_not_processed {n : Nat} (fp : Fin n → Option String)
    (deps : Fin n → List (Fin n)) :
    ∀ (tp : List (Fin n)) (processed : Finset (Fin n)) (ntp : List (Fin n))
      (sts : List String) (p' : Finset (Fin n)) (tp' : List (Fin n)) (sts' : List String),
      processWave fp deps tp processed ntp sts = some (p', tp', sts') →
      ∀ x ∈ tp', x ∈ ntp ∨ x ∉ processed := by
  intro tp
  induction tp with
  | nil =>
    intro processed ntp sts p' tp' sts' h x hx
    simp only [processWave, Option.some.injEq, Prod.mk.injEq] at h
    exact Or.inl (by rw [← h.2.1] at hx; exact hx)
  | cons p rest ih =>
    intro processed ntp sts p' tp' sts' h x hx
    cases hfp : fp p with
    | none => simp only [processWave, hfp] at h; exact Option.noConfusion h
    | some s =>
      simp only [processWave, hfp] at h
      by_cases hs : s = ("")
      · rw [if_pos hs] at h; exact Option.noConfusion h
      · rw [if_neg hs] at h
        rcases ih _ _ _ _ _ _ h x hx with hcase | hcase
        · rcases mem_of_mem_addNewDeps _ _ _ _ hcase with h2 | h2
          · exact Or.inl h2
          · right
            intro hxp
            exact h2.2 (Finset.mem_insert_of_mem hxp)
        · right
          intro hxp
          exact hcase (Finset.mem_insert_of_mem hxp)

/-- The `while (projectsToProcess.size > 0)` loop of
`ProjectBuildCache._getCacheId`.  Note the loop does not re-check membership in
`projectsThatHaveBeenProcessed` when it processes a wave, so a project queued
for the next wave before being processed in the current wave is processed
twice. -/
def bfsLoop {n : Nat} (fp : Fin n → Option String) (deps : Fin n → List (Fin n))
    (processed : Finset (Fin n)) (toProcess : List (Fin n)) (states : List String) :
    Option (List String) :=
  if toProcess = [] then some states
  else
    match hw : processWave fp deps toProcess processed [] states with
    | none => none
    | some (p', tp', sts') => bfsLoop fp deps p' tp' sts'
termination_by
  (n - processed.card, if ∀ x ∈ toProcess, x ∈ processed then 1 else 0, toProcess.length)
decreasing_by
  have hpeq : p' = processed ∪ toProcess.toFinset :=
    processWave_processed_eq fp deps _ _ _ _ _ _ _ hw
  by_cases hsub : ∀ x ∈ toProcess, x ∈ processed
  · have hpp : p' = processed := by
      rw [hpeq]
      apply Finset.union_eq_left.mpr
      intro x hx
      exact hsub x (List.mem_toFinset.mp hx)
    rw [hpp]
    by_cases hge : tp' = []
    · subst hge
      rw [if_pos (by intro x hx; cases hx), if_pos hsub]
      exact Prod.Lex.right _ (Prod.Lex.right _
        (by simpa using List.length_pos.mpr (by assumption)))
    · have hnot : ¬∀ x ∈ tp', x ∈ processed := by
        intro hall
        rcases List.exists_mem_of_ne_nil tp' hge with ⟨x, hx⟩
        rcases processWave_new_not_processed fp deps _ _ _ _ _ _ _ hw x hx with hin | hout
        · cases hin
        · exact hout (hall x hx)
      rw [if_neg hnot, if_pos hsub]
      exact Prod.Lex.right _ (Prod.Lex.left _ _ Nat.zero_lt_one)
  · apply Prod.Lex.left
    push_neg at hsub
    rcases hsub with ⟨x, hx, hxp⟩
    have hlt : processed.card < p'.card := by
      apply Finset.card_lt_card
      constructor
      · rw [hpeq]; exact Finset.subset_union_left
      · intro hsub2
        exact hxp (hsub2 (by rw [hpeq]; exact Finset.mem_union_right _ (List.mem_toFinset.mpr hx)))
    have hle : p'.card ≤ n := by
      simpa using Finset.card_le_univ p'
    exact Nat.sub_lt_sub_left (Nat.lt_of_lt_of_le hlt hle) hlt

/-- Lexicographic comparison of character lists (code-point order). -/
def charListLt : List Char → List Char → Bool
  | [], [] => false
  | [], _ :: _ => true
  | _ :: _, [] => false
  | a :: as, b :: bs => if a < b then true else if b < a then false else charListLt as bs

/-- Lexicographic string comparison; models the default `Array.prototype.sort()`
comparator (UTF-16 code-unit order, which agrees with code-point order on the
hex-digest fingerprints being sorted). -/
def stringLt (a b : String) : Bool := charListLt a.data b.data

/-- Stable insertion of a string into a sorted list. -/
def insertSorted (s : String) : List String → List String
  | [] => [s]
  | t :: rest => if stringLt t s then t :: insertSorted s rest else s :: t :: rest

/-- Sorting used for `const sortedProjectStates: string[] = projectStates.sort()`. -/
def sortStrings : List String → List String
  | [] => []
  | s :: rest => insertSorted s (sortStrings rest)

/-- First phase of `ProjectBuildCache._getCacheId`: the `projectStates` array
produced by the wave traversal that starts from the own project of the operation
(`none` when some processed project had no truthy state hash). -/
def collectProjectStates {n : Nat} (fp : Fin n → Option String)
    (deps : Fin n → List (Fin n)) (root : Fin n) : Option (List String) :=
  bfsLoop fp deps ∅ [root] []

/-- Second phase of `ProjectBuildCache._getCacheId`: the sequence of chunks fed
to the SHA-1 hash, in order: the JSON-serialized output folder name list, a
delimiter, the command, a delimiter, then each sorted project state followed by
a delimiter.  The digest is modelled collision-freely by this chunk list. -/
def getCacheIdHashInput {n : Nat} (fp : Fin n → Option String)
    (deps : Fin n → List (Fin n)) (root : Fin n)
    (projectOutputFolderNames : List String) (command : String) : Option (List String) :=
  match collectProjectStates fp deps root with
  | none => none
  | some projectStates =>
    some ([jsonStringifyStringList projectOutputFolderNames, hashDelimiter, command,
      hashDelimiter] ++ (sortStrings projectStates).foldr (fun h acc => h :: hashDelimiter :: acc) [])

/-- Modelled from the spec: `BuildCacheConfiguration.getCacheEntryId` (not part
of the sampled source) combines the caller-supplied namespace (the project
name) with the state digest to form the final cache entry id. -/
def getCacheId {n : Nat} (fp : Fin n → Option String) (deps : Fin n → List (Fin n))
    (root : Fin n) (projectOutputFolderNames : List String) (command : String)
    (projectName : String) : Option (String × List String) :=
  (getCacheIdHashInput fp deps root projectOutputFolderNames command).map
    (fun d => (projectName, d))

/-- Reachability along declared dependency edges: the transitive dependency
closure of a project, including the project itself. -/
def ReachableFrom {n : Nat} (deps : Fin n → List (Fin n)) (a b : Fin n) : Prop :=
  Relation.ReflTransGen (fun x y => y ∈ deps x) a b

/-- Example graph: project 0 declares dependencies [1, 2] (in that order),
project 1 depends on [2], project 2 has no dependencies.  Project 2 is
reachable along two paths (directly and through project 1). -/
def exampleDepsA : Fin 3 → List (Fin 3) := ![[1, 2], [2], []]

/-- The same graph with the dependency edges of project 0 declared in the
opposite order [2, 1]; each dependency list is a permutation of its list in
`exampleDepsA`. -/
def exampleDepsB : Fin 3 → List (Fin 3) := ![[2, 1], [2], []]

/-- State fingerprints for the example projects: all distinct and truthy. -/
def exampleFp : Fin 3 → Option String := ![some ("r"), some ("a"), some ("b")]

/-- Example output folder names and command for the cache-key counterexamples. -/
def exampleOutputFolderNames : List String := [("lib"), ("dist")]

/-- Example command string for the cache-key counterexamples. -/
def exampleCommand : String := "rush build"

/-! ## Tiered restore and save (`tryRestoreFromCacheAsync` / `trySetCacheEntryAsync`)

The cache providers, the `tar` executable and the file system are external
collaborators; they enter the model as an environment of oracles.  The project
folder is modelled as a map from project-relative paths to file contents, and
an archive blob as an opaque string together with an environment decoder that
gives the file contents stored in it. -/

/-- Archive blobs are opaque byte strings. -/
abbrev Buffer := String

/-- The project folder: maps a project-relative path to the file content. -/
abbrev ProjectFs := String → Option String

/-- Prefix test on character lists (a kernel-evaluable prefix test on strings). -/
def prefixChars : List Char → List Char → Bool
  | [], _ => true
  | _ :: _, [] => false
  | a :: as, b :: bs => if a = b then prefixChars as bs else false

/-- Whether a project-relative path lies inside one of the declared output folders. -/
def underOutputFolders (projectOutputFolderNames : List String) (path : String) : Bool :=
  projectOutputFolderNames.any (fun f => prefixChars (f ++ ("/")).data path.data)

/-- The restore-side purge: `FileSystem.deleteFolderAsync` applied to every
declared output folder before unpacking. -/
def purgeFolders (projectOutputFolderNames : List String) (fs : ProjectFs) : ProjectFs :=
  fun p => if underOutputFolders projectOutputFolderNames p then none else fs p

/-- Extraction of an archive into the project folder by tar: archive entries
overwrite files at their paths, all other paths are untouched. -/
def extractArchive (entries : String → Option String) (fs : ProjectFs) : ProjectFs :=
  fun p =>
    match entries p with
    | some c => some c
    | none => fs p

/-- Externally visible steps of `tryRestoreFromCacheAsync`, in program order. -/
inductive RestoreEvent where
  | localQuery
  | cloudQuery
  | localBackfillWrite
  | purgeFolders
  | untarFromLocalEntry
  | untarInMemory
  deriving DecidableEq

/-- Environment of `tryRestoreFromCacheAsync`: the results the external
collaborators would return during this call.
* `localEntry`: result of `FileSystemBuildCacheProvider.tryGetCacheEntryPathByIdAsync`
  (`some b` is a hit on an entry file whose content is `b`);
* `cloudProvider`: `none` when no cloud provider is configured, otherwise the
  result of `tryGetCacheEntryBufferByIdAsync`;
* `backfillOk`: whether the local `trySetCacheEntryBufferAsync` backfill throws;
* `tarUtility`: `none` when `TarExecutable.tryInitialize` failed, otherwise the
  exit code `tryUntarAsync` would return;
* `inProcessUntarOk`: whether the in-process `tar.extract` stream write succeeds;
* `decode`: the file entries stored in an archive blob. -/
structure RestoreEnv where
  localEntry : Option Buffer
  cloudProvider : Option (Option Buffer)
  backfillOk : Bool
  tarUtility : Option Int
  inProcessUntarOk : Bool
  decode : Buffer → String → Option String

/-- Result of a modelled `tryRestoreFromCacheAsync` call: the returned boolean,
the final project folder state, the externally visible steps in order, the
warning lines, and whether an exception escaped. -/
structure RestoreOutcome where
  result : Bool
  fs : ProjectFs
  trace : List RestoreEvent
  warnings : List String
  crashed : Bool

/-- Warning written when `_cacheId` is `undefined`. -/
def cacheIdMissingWarning : String :=
  "Unable to get cache ID. Ensure Git is installed."

/-- Warning written when the external tar exits nonzero during restore. -/
def tarRestoreFailedWarning (code : Int) : String :=
  ("tar exited with code ") ++ toString code ++ (" while attempting to restore cache entry.")

/-- Warning written when neither extraction path succeeded. -/
def restoreFailedWarning : String :=
  "Unable to restore output from the build cache."

/-- Warning written when the cloud-to-local backfill write failed. -/
def backfillFailedWarning : String :=
  "Unable to update the local build cache with data from the cloud cache."

/-- Shallow embedding of `ProjectBuildCache.tryRestoreFromCacheAsync`:
local query first; on local miss and configured cloud provider, cloud query;
on cloud hit, best-effort backfill of the local tier (a thrown backfill error
is caught); on any hit, purge of the declared output folders, then extraction
through the external tar (only when a local entry file exists) with in-memory
extraction as fallback. -/
def tryRestoreFromCache (cacheId : Option (String × List String))
    (projectOutputFolderNames : List String) (env : RestoreEnv) (fs0 : ProjectFs) :
    RestoreOutcome :=
  match cacheId with
  | none => ⟨false, fs0, [], [cacheIdMissingWarning], false⟩
  | some _ =>
    let cloudPhase : Option Buffer × Option Buffer × Option Bool × List RestoreEvent :=
      match env.localEntry with
      | some b => (some b, none, none, [RestoreEvent.localQuery])
      | none =>
        match env.cloudProvider with
        | none => (none, none, none, [RestoreEvent.localQuery])
        | some lookup =>
          match lookup with
          | none => (none, none, none, [RestoreEvent.localQuery, RestoreEvent.cloudQuery])
          | some buf =>
            if env.backfillOk then
              (some buf, some buf, some true,
                [RestoreEvent.localQuery, RestoreEvent.cloudQuery, RestoreEvent.localBackfillWrite])
            else
              (none, some buf, some false,
                [RestoreEvent.localQuery, RestoreEvent.cloudQuery, RestoreEvent.localBackfillWrite])
    match cloudPhase with
    | (localCacheEntryPath, cacheEntryBuffer, updateLocalCacheSuccess, trace1) =>
      if localCacheEntryPath = none ∧ cacheEntryBuffer = none then
        ⟨false, fs0, trace1, [], false⟩
      else
        let fs1 := purgeFolders projectOutputFolderNames fs0
        let trace2 := trace1 ++ [RestoreEvent.purgeFolders]
        let tarPhase : Bool × ProjectFs × List RestoreEvent × List String :=
          match env.tarUtility, localCacheEntryPath with
          | some code, some b =>
            if code = 0 then
              (true, extractArchive (env.decode b) fs1,
                trace2 ++ [RestoreEvent.untarFromLocalEntry], [])
            else
              (false, fs1, trace2 ++ [RestoreEvent.untarFromLocalEntry],
                [tarRestoreFailedWarning code])
          | _, _ => (false, fs1, trace2, [])
        match tarPhase with
        | (tarSuccess, fs2, trace3, warns3) =>
          let fallbackPhase : Bool × ProjectFs × List RestoreEvent × Bool :=
            if tarSuccess then (true, fs2, trace3, false)
            else
              match cacheEntryBuffer with
              | some b =>
                if env.inProcessUntarOk then
                  (true, extractArchive (env.decode b) fs2, trace3 ++ [RestoreEvent.untarInMemory],
                    false)
                else (false, fs2, trace3 ++ [RestoreEvent.untarInMemory], false)
              | none =>
                match localCacheEntryPath with
                | some b =>
                  if env.inProcessUntarOk then
                    (true, extractArchive (env.decode b) fs2,
                      trace3 ++ [RestoreEvent.untarInMemory], false)
                  else (false, fs2, trace3 ++ [RestoreEvent.untarInMemory], false)
                | none => (false, fs2, trace3, true)
          match fallbackPhase with
          | (restoreSuccess, fs3, trace4, crashed) =>
            ⟨restoreSuccess, fs3, trace4,
              warns3 ++ (if restoreSuccess then [] else [restoreFailedWarning]) ++
                (if updateLocalCacheSuccess = some false then [backfillFailedWarning] else []),
              crashed⟩

/-- A directory entry as reported by `fs.readdir` with `withFileTypes`. -/
inductive FsEntry where
  | file (name : String)
  | dir (name : String) (entries : List FsEntry)
  | symlink (name : String)

/-- Embedding of `ProjectBuildCache._getPathsInFolder`: recursive enumeration that yields
regular file paths, recurses into directories, and hands each symbolic link
path to the `symbolicLinkPathCallback` (the second component). -/
def getPathsInFolder (posixPrefix : String) : List FsEntry → List String × List String
  | [] => ([], [])
  | FsEntry.file nm :: rest =>
    match getPathsInFolder posixPrefix rest with
    | (ps, ss) => ((posixPrefix ++ ("/") ++ nm) :: ps, ss)
  | FsEntry.symlink nm :: rest =>
    match getPathsInFolder posixPrefix rest with
    | (ps, ss) => (ps, (posixPrefix ++ ("/") ++ nm) :: ss)
  | FsEntry.dir nm entries :: rest =>
    match getPathsInFolder (posixPrefix ++ ("/") ++ nm) entries,
        getPathsInFolder posixPrefix rest with
    | (ps1, ss1), (ps2, ss2) => (ps1 ++ ps2, ss1 ++ ss2)

/-- Whether a directory tree contains a symbolic link anywhere. -/
def treeHasSymlink : List FsEntry → Bool
  | [] => false
  | FsEntry.file _ :: rest => treeHasSymlink rest
  | FsEntry.symlink _ :: _ => true
  | FsEntry.dir _ entries :: rest => treeHasSymlink entries || treeHasSymlink rest

/-- The folder loop of `_tryCollectPathsToCacheAsync`: the
`encounteredEnumerationIssue` flag is consulted before each folder is
enumerated and once more after the loop, so the folder that first reports a
symbolic link is still fully enumerated but no later folder is touched.
Returns the collected output file paths (or `none`) and the error lines
written by the symbolic-link callback. -/
def collectLoop : List (String × List FsEntry) → Bool → List String → List String →
    Option (List String) × List String
  | [], flag, paths, errs => (if flag then none else some paths, errs)
  | (nm, tree) :: rest, flag, paths, errs =>
    if flag then (none, errs)
    else
      match getPathsInFolder nm tree with
      | (ps, ss) => collectLoop rest (ss ≠ []) (paths ++ ps) (errs ++ ss)

/-- Embedding of `ProjectBuildCache._tryCollectPathsToCacheAsync`: folders that do not exist
are filtered out first (`FileSystem.existsAsync`), then the remaining folders
are enumerated.  Each output folder is given as its name together with `none`
(it does not exist) or its directory tree. -/
def tryCollectPathsToCache (outputFolders : List (String × Option (List FsEntry))) :
    Option (List String) × List String :=
  collectLoop (outputFolders.filterMap (fun fo => (fo.2).map (fun t => (fo.1, t)))) false [] []

/-- Externally visible steps of `trySetCacheEntryAsync`, in program order. -/
inductive SaveEvent where
  | tarCreateAtLocalPath
  | jsTarCreate
  | localWrite
  | cloudWrite
  deriving DecidableEq

/-- Environment of `trySetCacheEntryAsync`:
* `outputFolders`: the declared output folder names with their current trees;
* `tarUtility`: `none` when no external tar is available, otherwise the exit
  code of `tryCreateArchiveFromProjectPathsAsync`;
* `localWriteResult`: the path returned by the local provider
  `trySetCacheEntryBufferAsync` (`none` models a falsy result, i.e. failure);
* `cloudProvider`: `none` when unconfigured, otherwise `isCacheWriteAllowed`;
* `cloudWriteOk`: result of the cloud `trySetCacheEntryBufferAsync`. -/
structure SaveEnv where
  outputFolders : List (String × Option (List FsEntry))
  tarUtility : Option Int
  localWriteResult : Option String
  cloudProvider : Option Bool
  cloudWriteOk : Bool

/-- Result of a modelled `trySetCacheEntryAsync` call. -/
structure SaveOutcome where
  result : Bool
  trace : List SaveEvent
  warnings : List String
  errors : List String
  crashed : Bool

/-- Warning written when the external tar exits nonzero during archive creation. -/
def tarCreateFailedWarning (code : Int) : String :=
  ("tar exited with code ") ++ toString code ++ (" while attempting to create the cache entry.")

/-- Warning for a failed local write with a successful (or skipped) cloud write. -/
def localWriteFailedWarning : String := "Unable to set local cache entry."

/-- Warning for a failed cloud write with a successful local write. -/
def cloudWriteFailedWarning : String := "Unable to set cloud cache entry."

/-- Warning when both tier writes failed. -/
def bothWritesFailedWarning : String := "Unable to set both cloud and local cache entries."

/-- Shallow embedding of `ProjectBuildCache.trySetCacheEntryAsync`: collect the
output paths (refusing on symbolic links), create the archive with the external
tar directly at the local cache path, else with the in-process tar followed by
a local provider write; write to the cloud tier only when
`cloudProvider?.isCacheWriteAllowed === true`; report per-tier failures as
warnings and return a success flag. -/
def trySetCacheEntry (cacheId : Option (String × List String)) (env : SaveEnv) : SaveOutcome :=
  match cacheId with
  | none => ⟨false, [], [cacheIdMissingWarning], [], false⟩
  | some _ =>
    match tryCollectPathsToCache env.outputFolders with
    | (none, errs) => ⟨false, [], [], errs, false⟩
    | (some _paths, errs) =>
      let tarPhase : Option String × List SaveEvent × List String :=
        match env.tarUtility with
        | some code =>
          if code = 0 then (some ("tempLocalCacheEntryPath"), [SaveEvent.tarCreateAtLocalPath], [])
          else (none, [SaveEvent.tarCreateAtLocalPath], [tarCreateFailedWarning code])
        | none => (none, [], [])
      match tarPhase with
      | (localCacheEntryPath, trace1, warns1) =>
        let localPhase : Option String × List SaveEvent × Bool :=
          match localCacheEntryPath with
          | some p => (some p, trace1, false)
          | none => (env.localWriteResult, trace1 ++ [SaveEvent.jsTarCreate, SaveEvent.localWrite],
              true)
        match localPhase with
        | (localCachePath, trace2, bufferCreated) =>
          let cloudPhase : Bool × List SaveEvent × Bool :=
            if env.cloudProvider = some true then
              match bufferCreated, localCacheEntryPath with
              | false, none => (false, trace2, true)
              | _, _ => (env.cloudWriteOk, trace2 ++ [SaveEvent.cloudWrite], false)
            else (true, trace2, false)
          match cloudPhase with
          | (updateCloudCacheSuccess, trace3, crashed) =>
            let success := updateCloudCacheSuccess && localCachePath.isSome
            let warns4 :=
              if success then []
              else if localCachePath = none ∧ updateCloudCacheSuccess then
                [localWriteFailedWarning]
              else if localCachePath.isSome ∧ ¬updateCloudCacheSuccess then
                [cloudWriteFailedWarning]
              else [bothWritesFailedWarning]
            ⟨success, trace3, warns1 ++ warns4, errs, crashed⟩

/-- Whether the local-tier write of `trySetCacheEntryAsync` succeeds in a given
environment: the external tar created the entry at the local cache path, or the
local provider returned a truthy path. -/
def saveLocalOk (env : SaveEnv) : Bool :=
  match env.tarUtility with
  | some code => if code = 0 then true else env.localWriteResult.isSome
  | none => env.localWriteResult.isSome

/-- Whether the cloud side of `trySetCacheEntryAsync` succeeds: trivially true
when no write-allowed cloud provider is configured. -/
def saveCloudOk (env : SaveEnv) : Bool :=
  if env.cloudProvider = some true then env.cloudWriteOk else true

/-- The tar-creation warning lines emitted before the tier warnings. -/
def saveTarWarnings (env : SaveEnv) : List String :=
  match env.tarUtility with
  | some code => if code = 0 then [] else [tarCreateFailedWarning code]
  | none => []

/-- The existing output folders of a save environment (those whose existence
check succeeded), with their directory trees. -/
def existingOutputFolders (env : SaveEnv) : List (String × List FsEntry) :=
  env.outputFolders.filterMap (fun fo => (fo.2).map (fun t => (fo.1, t)))

/-- Whether, in an event trace, the output-folder purge comes before any
extraction event: the first purge-or-extraction event is the purge. -/
def purgeBeforeExtraction : List RestoreEvent → Bool
  | [] => false
  | RestoreEvent.purgeFolders :: _ => true
  | RestoreEvent.untarFromLocalEntry :: _ => false
  | RestoreEvent.untarInMemory :: _ => false
  | _ :: rest => purgeBeforeExtraction rest

/-- A cache entry will be found: the local tier has one, or a configured cloud
provider has one. -/
def restoreHit (env : RestoreEnv) : Prop :=
  env.localEntry ≠ none ∨ ∃ b, env.cloudProvider = some (some b)

/-! ## IPC operation runner (`IPCOperationRunner.executeAsync`)

IPC messages are arbitrary JavaScript values.  The message guards use
a `typeof` test for `object` (which in JavaScript is also true for `null`),
so the subsequent property access can throw a `TypeError`; the embedding makes
property access a fallible operation. -/

/-- Modelled from the spec: the `OperationStatus` enumeration of §3 (its
defining module is not part of the sampled source). -/
inductive OperationStatus where
  | Ready
  | Queued
  | Executing
  | Success
  | SuccessWithWarning
  | Failure
  | Blocked
  | Skipped
  | NoOp
  deriving DecidableEq

/-- The JavaScript runtime error thrown by a property access on `null` or
`undefined`. -/
inductive JsError where
  | typeError
  deriving DecidableEq

/-- JavaScript values as far as the IPC message handlers inspect them: the
`obj` constructor records the `event`, `status` and `requestor` properties
(`none` = property absent; the status property holds an `OperationStatus`
wire value). -/
inductive JsValue where
  | null
  | undef
  | boolean (b : Bool)
  | number (v : Int)
  | str (s : String)
  | obj (event : Option JsValue) (status : Option OperationStatus) (requestor : Option String)

/-- JavaScript `typeof`: note that `typeof null` is the string `object`. -/
def jsTypeof : JsValue → String
  | JsValue.null => "object"
  | JsValue.undef => "undefined"
  | JsValue.boolean _ => "boolean"
  | JsValue.number _ => "number"
  | JsValue.str _ => "string"
  | JsValue.obj _ _ _ => "object"

/-- JavaScript property access `message.event`: throws a `TypeError` on `null`
and `undefined`, yields `undefined` for a missing property or a primitive. -/
def getEventField : JsValue → Except JsError JsValue
  | JsValue.null => Except.error JsError.typeError
  | JsValue.undef => Except.error JsError.typeError
  | JsValue.obj e _ _ => Except.ok (e.getD JsValue.undef)
  | _ => Except.ok JsValue.undef

/-- JavaScript strict equality between a value and a string literal. -/
def jsStrictEqString : JsValue → String → Bool
  | JsValue.str s, t => s = t
  | _, _ => false

/-- Embedding of `isAfterExecuteEventMessage`,
the guard that tests `typeof message` against `object` and `message.event`
against `after-execute`. -/
def isAfterExecuteEventMessage (m : JsValue) : Except JsError Bool :=
  if jsTypeof m = ("object") then
    (getEventField m).map (fun e => jsStrictEqString e ("after-execute"))
  else Except.ok false

/-- Embedding of `isRequestRunEventMessage`,
the guard that tests `typeof message` against `object` and `message.event`
against `requestRun`. -/
def isRequestRunEventMessage (m : JsValue) : Except JsError Bool :=
  if jsTypeof m = ("object") then
    (getEventField m).map (fun e => jsStrictEqString e ("requestRun"))
  else Except.ok false

/-- Embedding of `isSyncEventMessage`,
the guard that tests `typeof message` against `object` and `message.event`
against `sync`. -/
def isSyncEventMessage (m : JsValue) : Except JsError Bool :=
  if jsTypeof m = ("object") then
    (getEventField m).map (fun e => jsStrictEqString e ("sync"))
  else Except.ok false

/-- The `requestor` property of a message (after the guard has accepted it). -/
def requestorField : JsValue → Option String
  | JsValue.obj _ _ r => r
  | _ => none

/-- The `status` property of a message (after the guard has accepted it);
`none` models an absent property (`undefined` cast to `OperationStatus`). -/
def statusField : JsValue → Option OperationStatus
  | JsValue.obj _ s _ => s
  | _ => none

/-- State touched by the first, persistent `message` listener of
`IPCOperationRunner.executeAsync`. -/
structure IpcHostState where
  requestRunCalls : List (Option String)
  readyResolved : Bool
  deriving DecidableEq

/-- The first `message` listener (lines 104-110 of the source): dispatches
`requestRun` to the external hook and `sync` to the ready latch; any other
recognized-shape message falls through with no state change; a guard that
throws propagates the exception. -/
def ipcOnMessage (m : JsValue) (st : IpcHostState) : Except JsError IpcHostState :=
  match isRequestRunEventMessage m with
  | Except.error e => Except.error e
  | Except.ok true =>
    Except.ok { st with requestRunCalls := st.requestRunCalls ++ [requestorField m] }
  | Except.ok false =>
    match isSyncEventMessage m with
    | Except.error e => Except.error e
    | Except.ok true => Except.ok { st with readyResolved := true }
    | Except.ok false => Except.ok st

/-- Events the child process can deliver while `executeAsync` is awaiting the
status promise. -/
inductive ChildEvent where
  | stdoutData (s : String)
  | stderrData (s : String)
  | message (m : JsValue)
  | exited (code : Int)

/-- State of one `executeAsync` invocation: the `hasWarningOrError` flag, the
status promise (`none` = pending; the inner `Option` is the resolved value,
where `none` models `undefined`), whether `context.error` was set, whether
`finishHandler` has detached the listeners, plus the host-listener state. -/
structure IpcRunState where
  hasWarningOrError : Bool
  resolved : Option (Option OperationStatus)
  contextError : Bool
  detached : Bool
  host : IpcHostState
  deriving DecidableEq

/-- A promise `resolve`: only the first resolution takes effect. -/
def resolveOnce : Option (Option OperationStatus) → Option OperationStatus →
    Option (Option OperationStatus)
  | some r, _ => some r
  | none, v => some v

/-- Embedding of `finishHandler` (lines 132-144): on an `after-execute` message it detaches
the stream/message/error/exit listeners and resolves the promise with the
status carried by the message. -/
def ipcFinishHandler (m : JsValue) (st : IpcRunState) : Except JsError IpcRunState :=
  match isAfterExecuteEventMessage m with
  | Except.error e => Except.error e
  | Except.ok true =>
    Except.ok { st with detached := true, resolved := resolveOnce st.resolved (statusField m) }
  | Except.ok false => Except.ok st

/-- One delivered child event.  `stderr` data sets `hasWarningOrError` while
the stream listeners are attached; a `message` runs the host listener (which
stays attached even after `finishHandler` detaches itself) and then
`finishHandler`; process exit runs `onExit` (lines 146-160), which does not
detach the stream listeners. -/
def ipcStep (st : IpcRunState) : ChildEvent → Except JsError IpcRunState
  | ChildEvent.stdoutData _ => Except.ok st
  | ChildEvent.stderrData _ =>
    Except.ok (if st.detached then st else { st with hasWarningOrError := true })
  | ChildEvent.message m =>
    match ipcOnMessage m st.host with
    | Except.error e => Except.error e
    | Except.ok host' =>
      if st.detached then Except.ok { st with host := host' }
      else ipcFinishHandler m { st with host := host' }
  | ChildEvent.exited code =>
    Except.ok
      (if st.detached then st
       else if code ≠ 0 then
         { st with contextError := true, resolved := resolveOnce st.resolved (some OperationStatus.Failure) }
       else if st.hasWarningOrError then
         { st with resolved := resolveOnce st.resolved (some OperationStatus.SuccessWithWarning) }
       else { st with resolved := resolveOnce st.resolved (some OperationStatus.Success) })

/-- The state at the start of an `executeAsync` run. -/
def ipcInitialState : IpcRunState :=
  ⟨false, none, false, false, ⟨[], false⟩⟩

/-- Delivering child events, in order, to one `executeAsync` run starting from
an intermediate state; a handler exception aborts the run. -/
def runIpcFrom (st : IpcRunState) : List ChildEvent → Except JsError IpcRunState
  | [] => Except.ok st
  | ev :: rest =>
    match ipcStep st ev with
    | Except.error e => Except.error e
    | Except.ok st' => runIpcFrom st' rest

/-- Delivering a list of child events to one `executeAsync` run. -/
def runIpcEvents (evs : List ChildEvent) : Except JsError IpcRunState :=
  runIpcFrom ipcInitialState evs

/-- The value `executeAsync` returns (line 184-186):
`status === OperationStatus.Success && hasWarningOrError ?
 OperationStatus.SuccessWithWarning : status`;
`none` when the promise never resolved. -/
def ipcReturnedStatus (st : IpcRunState) : Option (Option OperationStatus) :=
  st.resolved.map (fun status =>
    if status = some OperationStatus.Success ∧ st.hasWarningOrError then
      some OperationStatus.SuccessWithWarning
    else status)

theorem processWave_ntp_mono {n : Nat} (fp : Fin n → Option String)
    (deps : Fin n → List (Fin n)) :
    ∀ (tp : List (Fin n)) (processed : Finset (Fin n)) (ntp : List (Fin n))
      (sts : List String) (p' : Finset (Fin n)) (tp' : List (Fin n)) (sts' : List String),
      processWave fp deps tp processed ntp sts = some (p', tp', sts') →
      ∀ x ∈ ntp, x ∈ tp' := by
  intro tp
  induction tp with
  | nil =>
    intro processed ntp sts p' tp' sts' h x hx
    simp only [processWave, Option.some.injEq, Prod.mk.injEq] at h
    rw [← h.2.1]; exact hx
  | cons p rest ih =>
    intro processed ntp sts p' tp' sts' h x hx
    cases hfp : fp p with
    | none => simp only [processWave, hfp] at h; exact Option.noConfusion h
    | some s =>
      simp only [processWave, hfp] at h
      by_cases hs : s = ("")
      · rw [if_pos hs] at h; exact Option.noConfusion h
      · rw [if_neg hs] at h
        exact ih _ _ _ _ _ _ h x (mem_addNewDeps_of_mem_acc _ _ _ _ hx)

theorem processWave_fp_truthy {n : Nat} (fp : Fin n → Option String)
    (deps : Fin n → List (Fin n)) :
    ∀ (tp : List (Fin n)) (processed : Finset (Fin n)) (ntp : List (Fin n))
      (sts : List String) (p' : Finset (Fin n)) (tp' : List (Fin n)) (sts' : List String),
      processWave fp deps tp processed ntp sts = some (p', tp', sts') →
      ∀ q ∈ tp, ∃ s, fp q = some s ∧ s ≠ ("") := by
  intro tp
  induction tp with
  | nil =>
    intro processed ntp sts p' tp' sts' _ q hq
    cases hq
  | cons p rest ih =>
    intro processed ntp sts p' tp' sts' h q hq
    cases hfp : fp p with
    | none => simp only [processWave, hfp] at h; exact Option.noConfusion h
    | some s =>
      simp only [processWave, hfp] at h
      by_cases hs : s = ("")
      · rw [if_pos hs] at h; exact Option.noConfusion h
      · rw [if_neg hs] at h
        rcases List.mem_cons.mp hq with hcase | hcase
        · exact ⟨s, by rw [hcase]; exact hfp, hs⟩
        · exact ih _ _ _ _ _ _ h q hcase

theorem processWave_deps_covered {n : Nat} (fp : Fin n → Option String)
    (deps : Fin n → List (Fin n)) :
    ∀ (tp : List (Fin n)) (processed : Finset (Fin n)) (ntp : List (Fin n))
      (sts : List String) (p' : Finset (Fin n)) (tp' : List (Fin n)) (sts' : List String),
      processWave fp deps tp processed ntp sts = some (p', tp', sts') →
      ∀ q ∈ tp, ∀ d ∈ deps q, d ∈ p' ∨ d ∈ tp' := by
  intro tp
  induction tp with
  | nil =>
    intro processed ntp sts p' tp' sts' _ q hq
    cases hq
  | cons p rest ih =>
    intro processed ntp sts p' tp' sts' h q hq d hd
    cases hfp : fp p with
    | none => simp only [processWave, hfp] at h; exact Option.noConfusion h
    | some s =>
      simp only [processWave, hfp] at h
      by_cases hs : s = ("")
      · rw [if_pos hs] at h; exact Option.noConfusion h
      · rw [if_neg hs] at h
        rcases List.mem_cons.mp hq with hcase | hcase
        · subst hcase
          by_cases hdp : d ∈ insert q processed
          · left
            rw [processWave_processed_eq fp deps _ _ _ _ _ _ _ h]
            exact Finset.mem_union_left _ hdp
          · right
            exact processWave_ntp_mono fp deps _ _ _ _ _ _ _ h d
              (mem_addNewDeps_of_not_processed _ _ _ _ hd hdp)
        · exact ih _ _ _ _ _ _ h q hcase d hd

theorem bfsLoop_eq_nil {n : Nat} (fp : Fin n → Option String)
    (deps : Fin n → List (Fin n)) (processed : Finset (Fin n)) (states : List String) :
    bfsLoop fp deps processed [] states = some states := by
  unfold bfsLoop
  simp

theorem bfsLoop_eq_step {n : Nat} (fp : Fin n → Option String)
    (deps : Fin n → List (Fin n)) (processed : Finset (Fin n)) (toProcess : List (Fin n))
    (states : List String) (p' : Finset (Fin n)) (tp' : List (Fin n)) (sts' : List String)
    (htp : toProcess ≠ [])
    (hw : processWave fp deps toProcess processed [] states = some (p', tp', sts')) :
    bfsLoop fp deps processed toProcess states = bfsLoop fp deps p' tp' sts' := by
  conv_lhs => rw [bfsLoop]
  rw [if_neg htp]
  split
  · rename_i heq
    rw [hw] at heq
    exact Option.noConfusion heq
  · rename_i a b c heq
    rw [hw] at heq
    injection heq with heq2
    injection heq2 with h1 heq3
    injection heq3 with h2 h3
    rw [h1, h2, h3]

theorem bfsLoop_eq_none {n : Nat} (fp : Fin n → Option String)
    (deps : Fin n → List (Fin n)) (processed : Finset (Fin n)) (toProcess : List (Fin n))
    (states : List String) (htp : toProcess ≠ [])
    (hw : processWave fp deps toProcess processed [] states = none) :
    bfsLoop fp deps processed toProcess states = none := by
  conv_lhs => rw [bfsLoop]
  rw [if_neg htp]
  split
  · rfl
  · rename_i a b c heq
    rw [hw] at heq
    exact Option.noConfusion heq

/-- If the wave loop completes, the set of projects it has processed is closed
under dependency edges, contains everything that was queued, and every member
had a truthy state fingerprint. -/
theorem bfsLoop_some_closed {n : Nat} (fp : Fin n → Option String)
    (deps : Fin n → List (Fin n)) :
    ∀ (processed : Finset (Fin n)) (toProcess : List (Fin n)) (states out : List String),
      bfsLoop fp deps processed toProcess states = some out →
      (∀ p ∈ processed, ∃ s, fp p = some s ∧ s ≠ ("")) →
      (∀ p ∈ processed, ∀ d ∈ deps p, d ∈ processed ∨ d ∈ toProcess) →
      ∃ final : Finset (Fin n),
        (∀ x ∈ processed, x ∈ final) ∧ (∀ x ∈ toProcess, x ∈ final) ∧
        (∀ p ∈ final, ∃ s, fp p = some s ∧ s ≠ ("")) ∧
        (∀ p ∈ final, ∀ d ∈ deps p, d ∈ final) := by
  intro processed toProcess states out
  induction processed, toProcess, states using bfsLoop.induct fp deps with
  | case1 processed states =>
    intro _ hfp hcl
    refine ⟨processed, fun x hx => hx, fun x hx => absurd hx (List.not_mem_nil x), hfp, ?_⟩
    intro p hp d hd
    rcases hcl p hp d hd with h | h
    · exact h
    · cases h
  | case2 processed toProcess states htp hw =>
    intro hrun _ _
    rw [bfsLoop_eq_none fp deps _ _ _ htp hw] at hrun
    exact Option.noConfusion hrun
  | case3 processed toProcess states pout p' tp' sts' hw ih =>
    intro hrun hfp hcl
    rw [bfsLoop_eq_step fp deps _ _ _ _ _ _ pout hw] at hrun
    have hpeq : p' = processed ∪ toProcess.toFinset :=
      processWave_processed_eq fp deps _ _ _ _ _ _ _ hw
    have hfp' : ∀ p ∈ p', ∃ s, fp p = some s ∧ s ≠ ("") := by
      intro p hp
      rw [hpeq] at hp
      rcases Finset.mem_union.mp hp with h | h
      · exact hfp p h
      · exact processWave_fp_truthy fp deps _ _ _ _ _ _ _ hw p (List.mem_toFinset.mp h)
    have hcl' : ∀ p ∈ p', ∀ d ∈ deps p, d ∈ p' ∨ d ∈ tp' := by
      intro p hp d hd
      rw [hpeq] at hp
      rcases Finset.mem_union.mp hp with h | h
      · rcases hcl p h d hd with h2 | h2
        · left; rw [hpeq]; exact Finset.mem_union_left _ h2
        · left; rw [hpeq]; exact Finset.mem_union_right _ (List.mem_toFinset.mpr h2)
      · exact processWave_deps_covered fp deps _ _ _ _ _ _ _ hw p (List.mem_toFinset.mp h) d hd
    rcases ih hrun hfp' hcl' with ⟨final, hf1, hf2, hf3, hf4⟩
    refine ⟨final, ?_, ?_, hf3, hf4⟩
    · intro x hx
      apply hf1
      rw [hpeq]; exact Finset.mem_union_left _ hx
    · intro x hx
      apply hf1
      rw [hpeq]; exact Finset.mem_union_right _ (List.mem_toFinset.mpr hx)

/-- If any project in the transitive dependency closure of the root (including
the root itself) has no truthy state fingerprint, `_getCacheId` returns
`undefined` (modelled as `none`). -/
theorem getCacheIdHashInput_eq_none_of_unknown {n : Nat} (fp : Fin n → Option String)
    (deps : Fin n → List (Fin n)) (root : Fin n)
    (projectOutputFolderNames : List String) (command : String)
    (h : ∃ q, ReachableFrom deps root q ∧ (fp q = none ∨ fp q = some (""))) :
    getCacheIdHashInput fp deps root projectOutputFolderNames command = none := by
  rcases h with ⟨q, hreach, hq⟩
  cases hcol : collectProjectStates fp deps root with
  | none => simp [getCacheIdHashInput, hcol]
  | some states =>
    exfalso
    rcases bfsLoop_some_closed fp deps ∅ [root] [] states hcol
        (by intro p hp; cases hp) (by intro p hp; cases hp) with ⟨final, _, hf2, hf3, hf4⟩
    have hroot : root ∈ final := hf2 root (by simp)
    have hall : ∀ r, ReachableFrom deps root r → r ∈ final := by
      intro r hr
      induction hr with
      | refl => exact hroot
      | tail hab hbc ih => exact hf4 _ ih _ hbc
    have hqf : q ∈ final := hall q hreach
    rcases hf3 q hqf with ⟨s, hs, hne⟩
    rcases hq with hq | hq
    · rw [hq] at hs; exact Option.noConfusion hs
    · rw [hq] at hs
      injection hs with hs2
      exact hne hs2.symm

theorem collect_exampleA :
    collectProjectStates exampleFp exampleDepsA 0 = some [("r"), ("a"), ("b"), ("b")] := by
  have h1 : processWave exampleFp exampleDepsA [0] ∅ [] [] =
      some (insert 0 ∅, [1, 2], [("r")]) := rfl
  have h2 : processWave exampleFp exampleDepsA [1, 2] (insert 0 ∅) [] [("r")] =
      some (insert 2 (insert 1 (insert 0 ∅)), [2], [("r"), ("a"), ("b")]) := rfl
  have h3 : processWave exampleFp exampleDepsA [2] (insert 2 (insert 1 (insert 0 ∅)))
      [] [("r"), ("a"), ("b")] =
      some (insert 2 (insert 1 (insert 0 ∅)), [], [("r"), ("a"), ("b"), ("b")]) := rfl
  rw [collectProjectStates,
    bfsLoop_eq_step _ _ _ _ _ _ _ _ (by decide) h1,
    bfsLoop_eq_step _ _ _ _ _ _ _ _ (by decide) h2,
    bfsLoop_eq_step _ _ _ _ _ _ _ _ (by decide) h3,
    bfsLoop_eq_nil]

theorem collect_exampleB :
    collectProjectStates exampleFp exampleDepsB 0 = some [("r"), ("b"), ("a")] := by
  have h1 : processWave exampleFp exampleDepsB [0] ∅ [] [] =
      some (insert 0 ∅, [2, 1], [("r")]) := rfl
  have h2 : processWave exampleFp exampleDepsB [2, 1] (insert 0 ∅) [] [("r")] =
      some (insert 1 (insert 2 (insert 0 ∅)), [], [("r"), ("b"), ("a")]) := rfl
  rw [collectProjectStates,
    bfsLoop_eq_step _ _ _ _ _ _ _ _ (by decide) h1,
    bfsLoop_eq_step _ _ _ _ _ _ _ _ (by decide) h2,
    bfsLoop_eq_nil]

theorem getPathsInFolder_symlinks_nil_iff :
    ∀ (pfx : String) (entries : List FsEntry),
      (getPathsInFolder pfx entries).2 = [] ↔ treeHasSymlink entries = false := by
  intro pfx entries
  induction pfx, entries using getPathsInFolder.induct with
  | case1 pfx => simp [getPathsInFolder, treeHasSymlink]
  | case2 pfx nm rest ps ss hrec ih =>
    rw [hrec] at ih
    simp only [getPathsInFolder, hrec, treeHasSymlink]
    simpa using ih
  | case3 pfx nm rest ps ss hrec ih =>
    simp [getPathsInFolder, hrec, treeHasSymlink]
  | case4 pfx nm sub rest ps1 ss1 ps2 ss2 hrec2 hrec1 ih1 ih2 =>
    rw [hrec1] at ih1
    rw [hrec2] at ih2
    simp only [getPathsInFolder, hrec1, hrec2, treeHasSymlink]
    simp only at ih1 ih2
    simp [List.append_eq_nil, ih1, ih2, Bool.or_eq_false_iff]

theorem collectLoop_flagged (folders : List (String × List FsEntry))
    (paths errs : List String) :
    collectLoop folders true paths errs = (none, errs) := by
  cases folders with
  | nil => simp [collectLoop]
  | cons f rest =>
    rcases f with ⟨nm, tree⟩
    simp [collectLoop]

theorem collectLoop_symlink_none :
    ∀ (folders : List (String × List FsEntry)) (paths errs : List String),
      (∃ f ∈ folders, treeHasSymlink f.2 = true) →
      (collectLoop folders false paths errs).1 = none ∧
      ∃ extra, extra ≠ [] ∧ (collectLoop folders false paths errs).2 = errs ++ extra := by
  intro folders
  induction folders with
  | nil =>
    intro paths errs h
    rcases h with ⟨f, hf, _⟩
    cases hf
  | cons f rest ih =>
    intro paths errs h
    rcases f with ⟨nm, tree⟩
    rcases hrec : getPathsInFolder nm tree with ⟨ps, ss⟩
    by_cases hS : treeHasSymlink tree = true
    · have hss : ss ≠ [] := by
        intro hnil
        have h2 := (getPathsInFolder_symlinks_nil_iff nm tree).mp (by rw [hrec]; exact hnil)
        rw [hS] at h2
        exact Bool.noConfusion h2
      have hnext : collectLoop ((nm, tree) :: rest) false paths errs
          = collectLoop rest (decide ¬(ss = [])) (paths ++ ps) (errs ++ ss) := by
        simp [collectLoop, hrec]
      have hflag : (decide ¬(ss = [])) = true := by
        simp [hss]
      rw [hnext, hflag, collectLoop_flagged]
      exact ⟨rfl, ss, hss, rfl⟩
    · have hss : ss = [] := by
        have h2 := (getPathsInFolder_symlinks_nil_iff nm tree).mpr (by simpa using hS)
        rw [hrec] at h2
        exact h2
      have hnext : collectLoop ((nm, tree) :: rest) false paths errs
          = collectLoop rest false (paths ++ ps) (errs ++ ss) := by
        simp [collectLoop, hrec, hss]
      rw [hnext, hss, List.append_nil]
      rcases h with ⟨f, hf, hsym⟩
      rcases List.mem_cons.mp hf with heq | hmem
      · exfalso
        rw [heq] at hsym
        exact hS hsym
      · exact ih _ _ ⟨f, hmem, hsym⟩

theorem extract_purge_indep (entries : String → Option String) (ofn : List String)
    (fs fs' : ProjectFs) (p : String) (hp : underOutputFolders ofn p = true) :
    extractArchive entries (purgeFolders ofn fs) p
      = extractArchive entries (purgeFolders ofn fs') p := by
  cases he : entries p <;> simp [extractArchive, purgeFolders, hp, he]

theorem extract_purge_idem (entries : String → Option String) (ofn : List String)
    (fs : ProjectFs) (p : String) :
    extractArchive entries (purgeFolders ofn (extractArchive entries (purgeFolders ofn fs))) p
      = extractArchive entries (purgeFolders ofn fs) p := by
  by_cases hp : underOutputFolders ofn p <;> cases he : entries p <;>
    simp [extractArchive, purgeFolders, hp, he]

theorem purge_purge_idem (ofn : List String) (fs : ProjectFs) (p : String) :
    purgeFolders ofn (purgeFolders ofn fs) p = purgeFolders ofn fs p := by
  by_cases hp : underOutputFolders ofn p <;> simp [purgeFolders, hp]

theorem ipcStep_hasW_mono (st st' : IpcRunState) (ev : ChildEvent)
    (h : ipcStep st ev = Except.ok st') (hw : st.hasWarningOrError = true) :
    st'.hasWarningOrError = true := by
  cases ev with
  | stdoutData s =>
    simp only [ipcStep, Except.ok.injEq] at h
    rw [← h]
    exact hw
  | stderrData s =>
    simp only [ipcStep, Except.ok.injEq] at h
    rw [← h]
    by_cases hd : st.detached <;> simp [hd, hw]
  | message m =>
    simp only [ipcStep] at h
    cases hh : ipcOnMessage m st.host with
    | error e => simp only [hh] at h; exact Except.noConfusion h
    | ok host' =>
      simp only [hh] at h
      by_cases hd : st.detached
      · rw [if_pos hd] at h
        simp only [Except.ok.injEq] at h
        rw [← h]
        exact hw
      · rw [if_neg hd] at h
        cases hg : isAfterExecuteEventMessage m with
        | error e => rw [ipcFinishHandler, hg] at h; exact Except.noConfusion h
        | ok b =>
          cases b with
          | true =>
            rw [ipcFinishHandler, hg] at h
            simp only [Except.ok.injEq] at h
            rw [← h]
            exact hw
          | false =>
            rw [ipcFinishHandler, hg] at h
            simp only [Except.ok.injEq] at h
            rw [← h]
            exact hw
  | exited code =>
    simp only [ipcStep, Except.ok.injEq] at h
    rw [← h]
    by_cases hd : st.detached
    · simp [hd, hw]
    · rw [if_neg hd]
      by_cases hcode : code ≠ 0
      · rw [if_pos hcode]
        exact hw
      · rw [if_neg hcode]
        by_cases hwo : st.hasWarningOrError
        · rw [if_pos hwo]
          exact hw
        · rw [if_neg hwo]
          exact hw

theorem runIpcFrom_hasW_mono :
    ∀ (evs : List ChildEvent) (st st' : IpcRunState),
      runIpcFrom st evs = Except.ok st' →
      st.hasWarningOrError = true → st'.hasWarningOrError = true := by
  intro evs
  induction evs with
  | nil =>
    intro st st' h hw
    simp only [runIpcFrom, Except.ok.injEq] at h
    rw [← h]
    exact hw
  | cons e rest ih =>
    intro st st' h hw
    simp only [runIpcFrom] at h
    cases hs1 : ipcStep st e with
    | error err => rw [hs1] at h; exact Except.noConfusion h
    | ok stm =>
      rw [hs1] at h
      exact ih stm st' h (ipcStep_hasW_mono st stm e hs1 hw)

theorem runIpcFrom_append (l1 l2 : List ChildEvent) :
    ∀ (st : IpcRunState),
      runIpcFrom st (l1 ++ l2) =
        match runIpcFrom st l1 with
        | Except.error e => Except.error e
        | Except.ok st1 => runIpcFrom st1 l2 := by
  induction l1 with
  | nil => intro st; simp [runIpcFrom]
  | cons e rest ih =>
    intro st
    simp only [List.cons_append, runIpcFrom]
    cases hs1 : ipcStep st e with
    | error err => rfl
    | ok stm => exact ih stm

/-! ## Claim theorems -/

/-- C1: the computed cache key is NOT invariant under reordering of an
declared dependency list of an operation.  `exampleDepsA` and `exampleDepsB` are
the same graph except that project 0 declares its two dependency edges in
opposite orders (for every project the two dependency lists are permutations
of each other), yet the chunk sequences fed to the SHA-1 hash differ: with order
[1, 2] project 2 is queued for the second wave while it is also processed in
the first wave, so its fingerprint is hashed twice, which does not happen with
order [2, 1]. -/
theorem cacheKey_changes_under_dependency_reorder :
    (∀ i : Fin 3, List.Perm (exampleDepsA i) (exampleDepsB i)) ∧
    getCacheIdHashInput exampleFp exampleDepsA 0 exampleOutputFolderNames exampleCommand ≠
      getCacheIdHashInput exampleFp exampleDepsB 0 exampleOutputFolderNames exampleCommand := by
  constructor
  · decide
  · simp only [getCacheIdHashInput, collect_exampleA, collect_exampleB]
    decide

/-- C2: the traversal of `_getCacheId` does not deduplicate a project that is
reachable along several paths when that project sits in the same wave as one
of its dependents: in `exampleDepsA` the closure of project 0 is the three
projects 0, 1, 2, exactly one of which has fingerprint "b", yet the collected
`projectStates` array contains "b" twice. -/
theorem closure_traversal_duplicates_fingerprint :
    collectProjectStates exampleFp exampleDepsA 0 = some [("r"), ("a"), ("b"), ("b")] ∧
    List.count ("b") [("r"), ("a"), ("b"), ("b")] = 2 ∧
    (∀ i : Fin 3, exampleFp i = some ("b") ↔ i = 2) :=
  ⟨collect_exampleA, by decide, by decide⟩

/-- C3: if any project in the transitive dependency closure (including the
own project of the operation) has no truthy state fingerprint, `_getCacheId`
returns `undefined` rather than raising, and both `tryRestoreFromCacheAsync`
and `trySetCacheEntryAsync` then return `false` without crashing. -/
theorem unknown_state_disables_caching {n : Nat} (fp : Fin n → Option String)
    (deps : Fin n → List (Fin n)) (root : Fin n) (ofn : List String) (cmd pn : String)
    (env : RestoreEnv) (senv : SaveEnv) (fs0 : ProjectFs)
    (h : ∃ q, ReachableFrom deps root q ∧ (fp q = none ∨ fp q = some (""))) :
    getCacheId fp deps root ofn cmd pn = none ∧
    (tryRestoreFromCache (getCacheId fp deps root ofn cmd pn) ofn env fs0).result = false ∧
    (tryRestoreFromCache (getCacheId fp deps root ofn cmd pn) ofn env fs0).crashed = false ∧
    (trySetCacheEntry (getCacheId fp deps root ofn cmd pn) senv).result = false ∧
    (trySetCacheEntry (getCacheId fp deps root ofn cmd pn) senv).crashed = false := by
  have hid : getCacheIdHashInput fp deps root ofn cmd = none :=
    getCacheIdHashInput_eq_none_of_unknown fp deps root ofn cmd h
  have hcid : getCacheId fp deps root ofn cmd pn = none := by
    simp [getCacheId, hid]
  rw [hcid]
  exact ⟨rfl, rfl, rfl, rfl, rfl⟩

/-- Witness for C3 at a concrete one-project graph whose only project has no
fingerprint. -/
theorem unknown_state_disables_caching_witness :
    getCacheId (fun _ : Fin 1 => none) (fun _ => []) 0 [] ("b") ("p") = none ∧
    (tryRestoreFromCache (getCacheId (fun _ : Fin 1 => none) (fun _ => []) 0 [] ("b") ("p"))
      [] ⟨none, none, true, none, true, fun _ _ => none⟩ (fun _ => none)).result = false ∧
    (tryRestoreFromCache (getCacheId (fun _ : Fin 1 => none) (fun _ => []) 0 [] ("b") ("p"))
      [] ⟨none, none, true, none, true, fun _ _ => none⟩ (fun _ => none)).crashed = false ∧
    (trySetCacheEntry (getCacheId (fun _ : Fin 1 => none) (fun _ => []) 0 [] ("b") ("p"))
      ⟨[], none, none, none, true⟩).result = false ∧
    (trySetCacheEntry (getCacheId (fun _ : Fin 1 => none) (fun _ => []) 0 [] ("b") ("p"))
      ⟨[], none, none, none, true⟩).crashed = false :=
  unknown_state_disables_caching (fun _ => none) (fun _ => []) 0 [] ("b") ("p")
    ⟨none, none, true, none, true, fun _ _ => none⟩ ⟨[], none, none, none, true⟩ (fun _ => none)
    ⟨0, Relation.ReflTransGen.refl, Or.inl rfl⟩

/-- C4: the restore queries the local tier first; the cloud tier is queried
exactly on a local miss with a configured cloud provider; a cloud hit always
attempts the local backfill write; and a throwing backfill write is caught:
the restore proceeds from the in-memory blob (its result is that of the
in-memory extraction), only reporting a warning. -/
theorem restore_tier_policy (cid : String × List String) (ofn : List String)
    (env : RestoreEnv) (fs0 : ProjectFs) :
    ((tryRestoreFromCache (some cid) ofn env fs0).trace.head? = some RestoreEvent.localQuery) ∧
    (RestoreEvent.cloudQuery ∈ (tryRestoreFromCache (some cid) ofn env fs0).trace ↔
      env.localEntry = none ∧ env.cloudProvider ≠ none) ∧
    (∀ buf, env.localEntry = none → env.cloudProvider = some (some buf) →
      RestoreEvent.localBackfillWrite ∈ (tryRestoreFromCache (some cid) ofn env fs0).trace) ∧
    (∀ buf, env.localEntry = none → env.cloudProvider = some (some buf) →
      env.backfillOk = false →
      (tryRestoreFromCache (some cid) ofn env fs0).crashed = false ∧
      (tryRestoreFromCache (some cid) ofn env fs0).result = env.inProcessUntarOk ∧
      backfillFailedWarning ∈ (tryRestoreFromCache (some cid) ofn env fs0).warnings) := by
  rcases env with ⟨le, cp, bo, tu, ip, dec⟩
  refine ⟨?_, ?_, ?_, ?_⟩
  · rcases le with _ | b1 <;> rcases cp with _ | _ | b2 <;> rcases bo <;>
      rcases tu with _ | code <;> rcases ip <;>
      simp [tryRestoreFromCache] <;>
      rcases eq_or_ne code 0 with hc | hc <;> simp [hc]
  · rcases le with _ | b1 <;> rcases cp with _ | _ | b2 <;> rcases bo <;>
      rcases tu with _ | code <;> rcases ip <;>
      simp [tryRestoreFromCache] <;>
      rcases eq_or_ne code 0 with hc | hc <;> simp [hc]
  · intro buf hle hcp
    subst hle
    rcases cp with _ | _ | b2
    · exact Option.noConfusion hcp
    · simp at hcp
    · simp only [Option.some.injEq] at hcp
      subst hcp
      rcases bo <;> rcases tu with _ | code <;> rcases ip <;>
        simp [tryRestoreFromCache] <;>
        rcases eq_or_ne code 0 with hc | hc <;> simp [hc]
  · intro buf hle hcp hbo
    subst hle
    subst hbo
    rcases cp with _ | _ | b2
    · exact Option.noConfusion hcp
    · simp at hcp
    · simp only [Option.some.injEq] at hcp
      subst hcp
      rcases tu with _ | code <;> rcases ip <;>
        simp [tryRestoreFromCache, backfillFailedWarning, restoreFailedWarning]

/-- Witness for C4: local miss, cloud hit, failing backfill, working in-memory
extraction. -/
theorem restore_tier_policy_witness :
    (tryRestoreFromCache (some (("p"), [("d")])) [("lib")]
        ⟨none, some (some ("blob")), false, none, true, fun _ _ => none⟩
        (fun _ => none)).result = true ∧
    backfillFailedWarning ∈ (tryRestoreFromCache (some (("p"), [("d")])) [("lib")]
        ⟨none, some (some ("blob")), false, none, true, fun _ _ => none⟩
        (fun _ => none)).warnings := by
  have h := restore_tier_policy (("p"), [("d")]) [("lib")]
    ⟨none, some (some ("blob")), false, none, true, fun _ _ => none⟩ (fun _ => none)
  rcases h.2.2.2 ("blob") rfl rfl rfl with ⟨_, h2, h3⟩
  exact ⟨h2, h3⟩

/-- C5: with a known cache id and collectable outputs, a local-tier write is
always attempted (either the external tar creating the entry at the local
cache path, or the local provider write); the cloud write happens exactly when
`cloudProvider?.isCacheWriteAllowed === true`; no exception escapes; the
returned flag is the conjunction of the two tier results; and a failure of
exactly one tier is reported by the warning line of that tier alone. -/
theorem save_write_policy (cid : String × List String) (env : SaveEnv)
    (paths : List String)
    (hcollect : (tryCollectPathsToCache env.outputFolders).1 = some paths) :
    (SaveEvent.tarCreateAtLocalPath ∈ (trySetCacheEntry (some cid) env).trace ∨
      SaveEvent.localWrite ∈ (trySetCacheEntry (some cid) env).trace) ∧
    (SaveEvent.cloudWrite ∈ (trySetCacheEntry (some cid) env).trace ↔
      env.cloudProvider = some true) ∧
    ((trySetCacheEntry (some cid) env).crashed = false) ∧
    ((trySetCacheEntry (some cid) env).result = (saveLocalOk env && saveCloudOk env)) ∧
    (saveLocalOk env = false → saveCloudOk env = true →
      (trySetCacheEntry (some cid) env).warnings =
        saveTarWarnings env ++ [localWriteFailedWarning]) ∧
    (saveLocalOk env = true → saveCloudOk env = false →
      (trySetCacheEntry (some cid) env).warnings =
        saveTarWarnings env ++ [cloudWriteFailedWarning]) := by
  rcases env with ⟨fo, tu, lw, cpv, cw⟩
  rcases h2 : tryCollectPathsToCache fo with ⟨r1, r2⟩
  rw [h2] at hcollect
  simp only at hcollect
  subst hcollect
  refine ⟨?_, ?_, ?_, ?_, ?_, ?_⟩ <;>
    rcases tu with _ | code <;> rcases lw with _ | pa <;> rcases cpv with _ | b <;>
    (try rcases b) <;> rcases cw <;>
    simp [trySetCacheEntry, h2, saveLocalOk, saveCloudOk, saveTarWarnings] <;>
    rcases eq_or_ne code 0 with hc | hc <;>
    simp [hc]

/-- Witness for C5: empty (collectable) output folders, failing external tar,
successful local provider write, write-allowed cloud provider with failing
cloud write. -/
theorem save_write_policy_witness :
    (SaveEvent.tarCreateAtLocalPath ∈
        (trySetCacheEntry (some (("p"), [("d")]))
          ⟨[], some 2, some ("path"), some true, false⟩).trace ∨
      SaveEvent.localWrite ∈
        (trySetCacheEntry (some (("p"), [("d")]))
          ⟨[], some 2, some ("path"), some true, false⟩).trace) ∧
    (trySetCacheEntry (some (("p"), [("d")]))
        ⟨[], some 2, some ("path"), some true, false⟩).warnings =
      saveTarWarnings ⟨[], some 2, some ("path"), some true, false⟩ ++
        [cloudWriteFailedWarning] := by
  have h := save_write_policy (("p"), [("d")]) ⟨[], some 2, some ("path"), some true, false⟩
    [] rfl
  exact ⟨h.1, h.2.2.2.2.2 rfl rfl⟩

/-- C6: if any enumerated directory entry is a symbolic link, the symbolic-link
paths are reported as errors (the `errors` of the outcome are exactly the paths
handed to `symbolicLinkPathCallback`), the save returns `false`, nothing is
archived or written to any tier, and no exception escapes. -/
theorem save_rejects_symlinks (cid : String × List String) (env : SaveEnv)
    (hsym : ∃ f ∈ existingOutputFolders env, treeHasSymlink f.2 = true) :
    (trySetCacheEntry (some cid) env).result = false ∧
    (trySetCacheEntry (some cid) env).trace = [] ∧
    (trySetCacheEntry (some cid) env).crashed = false ∧
    (trySetCacheEntry (some cid) env).errors = (tryCollectPathsToCache env.outputFolders).2 ∧
    (trySetCacheEntry (some cid) env).errors ≠ [] := by
  have hmain := collectLoop_symlink_none (existingOutputFolders env) [] [] hsym
  rcases hmain with ⟨hnone, extra, hne, herrs⟩
  have hcol : tryCollectPathsToCache env.outputFolders =
      (none, (tryCollectPathsToCache env.outputFolders).2) := by
    rcases h2 : tryCollectPathsToCache env.outputFolders with ⟨r1, r2⟩
    have : r1 = none := by
      rw [tryCollectPathsToCache] at h2
      rw [← existingOutputFolders] at h2
      rw [h2] at hnone
      exact hnone
    rw [this]
  have herrs2 : (tryCollectPathsToCache env.outputFolders).2 = extra := by
    rw [tryCollectPathsToCache, ← existingOutputFolders, herrs]
    simp
  refine ⟨?_, ?_, ?_, ?_, ?_⟩ <;>
    rw [trySetCacheEntry] <;>
    rw [hcol] <;>
    simp [herrs2, hne]

/-- Witness for C6: one existing output folder whose tree is a single symbolic
link. -/
theorem save_rejects_symlinks_witness :
    (trySetCacheEntry (some (("p"), [("d")]))
        ⟨[(("lib"), some [FsEntry.symlink ("x")])], none, some ("path"), none, true⟩).result
      = false ∧
    (trySetCacheEntry (some (("p"), [("d")]))
        ⟨[(("lib"), some [FsEntry.symlink ("x")])], none, some ("path"), none, true⟩).trace
      = [] ∧
    (trySetCacheEntry (some (("p"), [("d")]))
        ⟨[(("lib"), some [FsEntry.symlink ("x")])], none, some ("path"), none, true⟩).errors
      ≠ [] := by
  have h := save_rejects_symlinks (("p"), [("d")])
    ⟨[(("lib"), some [FsEntry.symlink ("x")])], none, some ("path"), none, true⟩
    ⟨(("lib"), [FsEntry.symlink ("x")]), by simp [existingOutputFolders],
      by simp [treeHasSymlink]⟩
  exact ⟨h.1, h.2.1, h.2.2.2.2⟩

/-- C7: on every restore that finds a cache entry, the declared output folders
are purged before any extraction event; afterwards the contents of the output
folders do not depend on the pre-restore folder state (no pre-existing file
survives), and restoring the same entry twice gives the same final project
folder state as restoring it once. -/
theorem restore_purge_semantics (cid : String × List String) (ofn : List String)
    (env : RestoreEnv) (fs0 : ProjectFs) (hhit : restoreHit env) :
    purgeBeforeExtraction (tryRestoreFromCache (some cid) ofn env fs0).trace = true ∧
    (∀ fs0' p, underOutputFolders ofn p = true →
      (tryRestoreFromCache (some cid) ofn env fs0).fs p
        = (tryRestoreFromCache (some cid) ofn env fs0').fs p) ∧
    (∀ p, (tryRestoreFromCache (some cid) ofn env
        ((tryRestoreFromCache (some cid) ofn env fs0).fs)).fs p
      = (tryRestoreFromCache (some cid) ofn env fs0).fs p) := by
  rcases env with ⟨le, cp, bo, tu, ip, dec⟩
  rcases le with _ | b1
  · rcases cp with _ | lk
    · exfalso
      rcases hhit with h | ⟨b, hb⟩
      · exact h rfl
      · exact Option.noConfusion hb
    · rcases lk with _ | buf
      · exfalso
        rcases hhit with h | ⟨b, hb⟩
        · exact h rfl
        · rw [Option.some.injEq] at hb
          exact Option.noConfusion hb
      · cases bo
        · rcases tu with _ | code <;> rcases ip <;>
            (refine ⟨by simp [tryRestoreFromCache, purgeBeforeExtraction], ?_, ?_⟩
             · intro fs0' p hp
               simp [tryRestoreFromCache]
               first
                 | exact extract_purge_indep _ _ _ _ _ hp
                 | simp [purgeFolders, hp]
             · intro p
               simp [tryRestoreFromCache]
               first
                 | exact extract_purge_idem _ _ _ _
                 | exact purge_purge_idem _ _ _)
        · rcases tu with _ | code
          · rcases ip <;>
              (refine ⟨by simp [tryRestoreFromCache, purgeBeforeExtraction], ?_, ?_⟩
               · intro fs0' p hp
                 simp [tryRestoreFromCache]
                 first
                   | exact extract_purge_indep _ _ _ _ _ hp
                   | simp [purgeFolders, hp]
               · intro p
                 simp [tryRestoreFromCache]
                 first
                   | exact extract_purge_idem _ _ _ _
                   | exact purge_purge_idem _ _ _)
          · rcases eq_or_ne code 0 with hc | hc <;> rcases ip <;>
              (refine ⟨by simp [tryRestoreFromCache, purgeBeforeExtraction, hc], ?_, ?_⟩
               · intro fs0' p hp
                 simp [tryRestoreFromCache, hc]
                 first
                   | exact extract_purge_indep _ _ _ _ _ hp
                   | simp [purgeFolders, hp]
               · intro p
                 simp [tryRestoreFromCache, hc]
                 first
                   | exact extract_purge_idem _ _ _ _
                   | exact purge_purge_idem _ _ _)
  · rcases tu with _ | code
    · rcases ip <;>
        (refine ⟨by simp [tryRestoreFromCache, purgeBeforeExtraction], ?_, ?_⟩
         · intro fs0' p hp
           simp [tryRestoreFromCache]
           first
             | exact extract_purge_indep _ _ _ _ _ hp
             | simp [purgeFolders, hp]
         · intro p
           simp [tryRestoreFromCache]
           first
             | exact extract_purge_idem _ _ _ _
             | exact purge_purge_idem _ _ _)
    · rcases eq_or_ne code 0 with hc | hc <;> rcases ip <;>
        (refine ⟨by simp [tryRestoreFromCache, purgeBeforeExtraction, hc], ?_, ?_⟩
         · intro fs0' p hp
           simp [tryRestoreFromCache, hc]
           first
             | exact extract_purge_indep _ _ _ _ _ hp
             | simp [purgeFolders, hp]
         · intro p
           simp [tryRestoreFromCache, hc]
           first
             | exact extract_purge_idem _ _ _ _
             | exact purge_purge_idem _ _ _)

/-- Witness for C7: a local hit restored in-memory over a folder that held a
pre-existing file. -/
theorem restore_purge_semantics_witness :
    purgeBeforeExtraction (tryRestoreFromCache (some (("p"), [("d")])) [("lib")]
        ⟨some ("blob"), none, true, none, true, fun _ _ => none⟩
        (fun _ => some ("old"))).trace = true ∧
    (tryRestoreFromCache (some (("p"), [("d")])) [("lib")]
        ⟨some ("blob"), none, true, none, true, fun _ _ => none⟩
        (fun _ => some ("old"))).fs ("lib/a.txt")
      = (tryRestoreFromCache (some (("p"), [("d")])) [("lib")]
        ⟨some ("blob"), none, true, none, true, fun _ _ => none⟩
        (fun _ => none)).fs ("lib/a.txt") := by
  have h := restore_purge_semantics (("p"), [("d")]) [("lib")]
    ⟨some ("blob"), none, true, none, true, fun _ _ => none⟩
    (fun _ => some ("old")) (Or.inl (by simp))
  exact ⟨h.1, h.2.1 (fun _ => none) ("lib/a.txt") (by decide)⟩

/-- C10: a failed restore is not atomic.  When a cache entry is found but both
the external tar and the in-process extraction fail, `tryRestoreFromCacheAsync`
returns `false` (without an escaping exception) while the declared output
folders have already been purged, so the destination is left emptied rather
than in its pre-restore state. -/
theorem failed_restore_leaves_folders_purged (cid : String × List String)
    (ofn : List String) (env : RestoreEnv) (fs0 : ProjectFs)
    (hhit : restoreHit env)
    (htar : ∀ c, env.tarUtility = some c → c ≠ 0)
    (hip : env.inProcessUntarOk = false) :
    (tryRestoreFromCache (some cid) ofn env fs0).result = false ∧
    (tryRestoreFromCache (some cid) ofn env fs0).crashed = false ∧
    RestoreEvent.purgeFolders ∈ (tryRestoreFromCache (some cid) ofn env fs0).trace ∧
    (∀ p, underOutputFolders ofn p = true →
      (tryRestoreFromCache (some cid) ofn env fs0).fs p = none) := by
  rcases env with ⟨le, cp, bo, tu, ip, dec⟩
  simp only at htar hip
  subst hip
  rcases le with _ | b1
  · rcases cp with _ | lk
    · exfalso
      rcases hhit with h | ⟨b, hb⟩
      · exact h rfl
      · exact Option.noConfusion hb
    · rcases lk with _ | buf
      · exfalso
        rcases hhit with h | ⟨b, hb⟩
        · exact h rfl
        · rw [Option.some.injEq] at hb
          exact Option.noConfusion hb
      · cases bo
        · rcases tu with _ | code
          · refine ⟨by simp [tryRestoreFromCache], by simp [tryRestoreFromCache],
              by simp [tryRestoreFromCache], ?_⟩
            intro p hp
            simp [tryRestoreFromCache, purgeFolders, hp]
          · have hc : code ≠ 0 := htar code rfl
            refine ⟨by simp [tryRestoreFromCache, hc], by simp [tryRestoreFromCache, hc],
              by simp [tryRestoreFromCache, hc], ?_⟩
            intro p hp
            simp [tryRestoreFromCache, hc, purgeFolders, hp]
        · rcases tu with _ | code
          · refine ⟨by simp [tryRestoreFromCache], by simp [tryRestoreFromCache],
              by simp [tryRestoreFromCache], ?_⟩
            intro p hp
            simp [tryRestoreFromCache, purgeFolders, hp]
          · have hc : code ≠ 0 := htar code rfl
            refine ⟨by simp [tryRestoreFromCache, hc], by simp [tryRestoreFromCache, hc],
              by simp [tryRestoreFromCache, hc], ?_⟩
            intro p hp
            simp [tryRestoreFromCache, hc, purgeFolders, hp]
  · rcases tu with _ | code
    · refine ⟨by simp [tryRestoreFromCache], by simp [tryRestoreFromCache],
        by simp [tryRestoreFromCache], ?_⟩
      intro p hp
      simp [tryRestoreFromCache, purgeFolders, hp]
    · have hc : code ≠ 0 := htar code rfl
      refine ⟨by simp [tryRestoreFromCache, hc], by simp [tryRestoreFromCache, hc],
        by simp [tryRestoreFromCache, hc], ?_⟩
      intro p hp
      simp [tryRestoreFromCache, hc, purgeFolders, hp]

/-- Witness for C10: a local hit whose external tar exits 2 and whose
in-process extraction fails, over a folder that held a file beforehand. -/
theorem failed_restore_leaves_folders_purged_witness :
    (tryRestoreFromCache (some (("p"), [("d")])) [("lib")]
        ⟨some ("blob"), none, true, some 2, false, fun _ _ => none⟩
        (fun _ => some ("old"))).result = false ∧
    (tryRestoreFromCache (some (("p"), [("d")])) [("lib")]
        ⟨some ("blob"), none, true, some 2, false, fun _ _ => none⟩
        (fun _ => some ("old"))).fs ("lib/a.txt") = none := by
  have h := failed_restore_leaves_folders_purged (("p"), [("d")]) [("lib")]
    ⟨some ("blob"), none, true, some 2, false, fun _ _ => none⟩
    (fun _ => some ("old")) (Or.inl (by simp))
    (fun c hc => by injection hc with h2; rw [← h2]; decide) rfl
  exact ⟨h.1, h.2.2.2 ("lib/a.txt") (by decide)⟩

/-- C8: if error-stream output is observed at a point of the run where the
stream listeners are still attached, then a resolution carrying `Success` —
whether from an `after-execute` message or from a clean exit — is returned by
`executeAsync` as `SuccessWithWarning`. -/
theorem ipc_warning_overrides_success (l1 l2 : List ChildEvent) (s : String)
    (st : IpcRunState)
    (hrun : runIpcEvents (l1 ++ ChildEvent.stderrData s :: l2) = Except.ok st)
    (hnd : ∀ st1, runIpcEvents l1 = Except.ok st1 → st1.detached = false)
    (hs : st.resolved = some (some OperationStatus.Success)) :
    ipcReturnedStatus st = some (some OperationStatus.SuccessWithWarning) := by
  have hw : st.hasWarningOrError = true := by
    rw [runIpcEvents, runIpcFrom_append] at hrun
    cases h1 : runIpcFrom ipcInitialState l1 with
    | error e => rw [h1] at hrun; exact Except.noConfusion hrun
    | ok st1 =>
      rw [h1] at hrun
      simp only [runIpcFrom] at hrun
      have hd : st1.detached = false := hnd st1 (by rw [runIpcEvents]; exact h1)
      have hstep : ipcStep st1 (ChildEvent.stderrData s)
          = Except.ok { st1 with hasWarningOrError := true } := by
        simp [ipcStep, hd]
      rw [hstep] at hrun
      exact runIpcFrom_hasW_mono l2 _ st hrun rfl
  simp [ipcReturnedStatus, hs, hw]

/-- Witness for C8: error-stream output followed by an `after-execute` message
whose status is `Success` resolves, after mixing, to `SuccessWithWarning`. -/
theorem ipc_warning_overrides_success_witness :
    ipcReturnedStatus ⟨true, some (some OperationStatus.Success), false, true, ⟨[], false⟩⟩
      = some (some OperationStatus.SuccessWithWarning) :=
  ipc_warning_overrides_success []
    [ChildEvent.message (JsValue.obj (some (JsValue.str ("after-execute")))
      (some OperationStatus.Success) none)]
    ("warning text")
    ⟨true, some (some OperationStatus.Success), false, true, ⟨[], false⟩⟩
    rfl (fun st1 h => by injection h with h2; rw [← h2]; rfl) rfl

/-- C9: the message guards test `typeof message` against `object`, and that
test is true for `null` in JavaScript, so the handlers throw a `TypeError`
instead of ignoring the message when the child sends
`null` instead of ignoring it; every other unrecognized message value
(primitives, `undefined`, objects without a matching `event`) is ignored with
the state unchanged. -/
theorem ipc_null_message_throws :
    (ipcOnMessage JsValue.null ⟨[], false⟩ = Except.error JsError.typeError) ∧
    (ipcFinishHandler JsValue.null ipcInitialState = Except.error JsError.typeError) ∧
    (ipcStep ipcInitialState (ChildEvent.message JsValue.null)
      = Except.error JsError.typeError) ∧
    (∀ b, ipcOnMessage (JsValue.boolean b) ⟨[], false⟩ = Except.ok ⟨[], false⟩) ∧
    (∀ v : Int, ipcOnMessage (JsValue.number v) ⟨[], false⟩ = Except.ok ⟨[], false⟩) ∧
    (∀ s : String, ipcOnMessage (JsValue.str s) ⟨[], false⟩ = Except.ok ⟨[], false⟩) ∧
    (ipcOnMessage JsValue.undef ⟨[], false⟩ = Except.ok ⟨[], false⟩) ∧
    (ipcOnMessage (JsValue.obj none none none) ⟨[], false⟩ = Except.ok ⟨[], false⟩) ∧
    (∀ st : IpcRunState, ipcFinishHandler (JsValue.obj none none none) st = Except.ok st) :=
  ⟨rfl, rfl, rfl, fun _ => rfl, fun _ => rfl, fun _ => rfl, rfl, rfl, fun _ => rfl⟩

end RushVerify
